import Mathlib

/-!
Shallow embedding of `src/kernel/Kernel.cpp` (the FreeNOS kernel orchestrator):
the heap constructor, the interrupt vector table (hook registration and
dispatch), the boot image loader and the constructor's physical-memory
reservation sequence.  Machine integers (`Size`, `u32`, addresses) are
modelled as `Nat`; where unsigned wrap-around matters (the `u32`
subtractions `size - metaData` and `vec - getBase()`) the subtraction is
taken modulo `2^32`.  External collaborators (process manager, memory
context, physical allocator, interrupt controller) are modelled by outcome
oracles and by event traces recording the calls the kernel makes into them,
in program order.
-/

namespace FreeNOSKernel

/-- Width of the machine word `u32` used by `Size`, `Address` and vector numbers. -/
def w32 : Nat := 2 ^ 32

/-- Unsigned 32-bit subtraction `a - b` (two's-complement wrap-around), as the
C expressions `size - metaData` and `vec - m_intControl->getBase()` compute it. -/
def sub32 (a b : Nat) : Nat := (a + (w32 - b % w32)) % w32

/-- Modelled from the spec: the architecture page-size constant `PAGESIZE`
(defined in the architecture headers, which are not part of the sources here);
4096 bytes on the reference target.  The claims proved below do not depend on
its numeric value, only on its positivity. -/
def PAGESIZE : Nat := 4096

/-- Number of iterations of a loop `for (i = 0; i < n; i += step)`:
the ceiling of `n / step`. -/
def cdiv (n step : Nat) : Nat := (n + step - 1) / step

/-- Fuel-indexed translation of the C loop idiom
`for (i = start; i < limit; i += step) visit (base + i)`, returning the visited
addresses in order.  The fuel only bounds recursion depth: any fuel of at least
`limit - start` iterations is enough (see `pageLoopF_eq_range'`). -/
def pageLoopF (base step limit : Nat) : Nat → Nat → List Nat
  | _, 0 => []
  | i, fuel + 1 =>
    if i < limit then (base + i) :: pageLoopF base step limit (i + step) fuel
    else []

/-- Allocator range `{ address, size, alignment }` (`Allocator::Range`). -/
structure ARange where
  address : Nat
  size : Nat
  alignment : Nat
deriving DecidableEq

/-- Result of `Kernel::heap(base, size)`: where each allocator control block is
placement-constructed, the `Allocator::Range` each constructor receives, the
parent link, the installed process-wide default allocator (allocators are
identified by the raw address of their control block), the zeroed byte range,
and the returned error code. -/
structure HeapResult where
  metaData : Nat
  zeroedBase : Nat
  zeroedSize : Nat
  bubbleAddr : Nat
  bubbleRange : ARange
  poolAddr : Nat
  poolRange : ARange
  poolParent : Nat
  defaultAlloc : Nat
  ret : Nat
deriving DecidableEq

/-- `Kernel::heap(base, size)`.  `szBubble` and `szPool` stand for
`sizeof(BubbleAllocator)` and `sizeof(PoolAllocator)` (opaque compile-time
constants of the C++ target; both are at least 1).  Mirrors the source:
`metaData = sizeof(BubbleAllocator) + sizeof(PoolAllocator)`;
`bubbleRange = { base + metaData, size - metaData, sizeof(u32) }`;
`poolRange = { 0, size - metaData, sizeof(u32) }`; the heap bytes are zeroed;
`bubble = new (base) BubbleAllocator(bubbleRange)`;
`pool = new (base + sizeof(BubbleAllocator)) PoolAllocator(poolRange)`;
`pool->setParent(bubble)`; `Allocator::setDefault(pool)`; `return 0`. -/
def heap (szBubble szPool base size : Nat) : HeapResult :=
  let metaData := szBubble + szPool
  { metaData := metaData
    zeroedBase := base
    zeroedSize := size
    bubbleAddr := base
    bubbleRange := ⟨base + metaData, sub32 size metaData, 4⟩
    poolAddr := base + szBubble
    poolRange := ⟨0, sub32 size metaData, 4⟩
    poolParent := base
    defaultAlloc := base + szBubble
    ret := 0 }

/-- An interrupt hook `{ handler, param }` (`Kernel::InterruptHook`); the
handler function pointer is abstracted to a numeric identifier.
Modelled from the spec: hook equality (used by the duplicate check in
`hookIntVector` via `List::contains`, whose implementation lives in library
headers outside these sources) compares the `(handler, param)` pair. -/
structure InterruptHook where
  handler : Nat
  param : Nat
deriving DecidableEq

/-- The interrupt vector table `m_interrupts`: a vector of 256 slots, each
`ZERO` (no list yet) or a hook list in insertion order. -/
abbrev IntTable := List (Option (List InterruptHook))

/-- Hooks currently registered for a vector: empty when the slot holds no list. -/
def hookList (tbl : IntTable) (vec : Nat) : List InterruptHook :=
  (tbl.getD vec none).getD []

/-- `Kernel::hookIntVector(vec, handler, param)`: create the slot's list when
absent, then append a fresh `InterruptHook(h, p)` unless an identical hook is
already contained. -/
def hookIntVector (tbl : IntTable) (vec h p : Nat) : IntTable :=
  let tbl1 := if tbl.getD vec none = none then tbl.set vec (some []) else tbl
  let cur := (tbl1.getD vec none).getD []
  if (⟨h, p⟩ : InterruptHook) ∈ cur then tbl1
  else tbl1.set vec (some (cur ++ [⟨h, p⟩]))

/-- Result codes `Kernel::Result` (and the `Error` integer of `heap`). -/
inductive KResult where
  | Success
  | InvalidBootImage
  | ProcessError
  | IOError
deriving DecidableEq

/-- Observable calls the interrupt path makes into its collaborators, in
program order: interrupt-controller enable/disable, a hook invocation with
its arguments `(state, param, vector)`, the process-manager notification for
a logical IRQ, and the `FATAL` sink.
Modelled from the spec: `FATAL` (a logging macro defined outside these
sources) logs the condition and halts the system; `fatalHalt` records that
the system stops rather than continuing. -/
inductive Event where
  | enable (irq : Nat)
  | disable (irq : Nat)
  | handlerCall (handler st param vec : Nat)
  | notify (irq : Nat)
  | fatalHalt
deriving DecidableEq

/-- Kernel state visible to the interrupt path: the optional interrupt
controller `m_intControl` (abstracted to its `getBase()` value; `none` is the
`ZERO` null pointer), the vector table `m_interrupts`, and outcome oracles for
the collaborators: `notifyOk irq` is whether
`m_procs->interruptNotify(irq)` returns `ProcessManager::Success`, and
`sendOk core irq` whether `m_intControl->send(core, irq)` returns
`IntController::Success`. -/
structure KState where
  intControl : Option Nat
  interrupts : IntTable
  notifyOk : Nat → Bool
  sendOk : Nat → Nat → Bool

/-- `Kernel::enableIRQ(irq, enabled)`: when a controller is installed, enable
or disable the line; a no-op otherwise.  Returns the controller calls made. -/
def enableIRQ (k : KState) (irq : Nat) (enabled : Bool) : List Event :=
  match k.intControl with
  | none => []
  | some _ => if enabled then [Event.enable irq] else [Event.disable irq]

/-- `Kernel::sendIRQ(coreId, irq)`: when a controller is installed, send the
inter-processor interrupt and report `IOError` on failure; otherwise return
`Success` without touching hardware. -/
def sendIRQ (k : KState) (coreId irq : Nat) : KResult :=
  match k.intControl with
  | none => KResult.Success
  | some _ => if k.sendOk coreId irq then KResult.Success else KResult.IOError

/-- `Kernel::executeIntVector(vec, state)`: auto-mask the vector via
`enableIRQ(vec, false)`, run every hook of the vector's list in order passing
`(state, param, vec)`, then call `m_procs->interruptNotify(vec - m_intControl->getBase())`
and `FATAL` when it fails.  The `getBase()` call dereferences `m_intControl`
unconditionally, so with no controller installed the function has no defined
result (`none`); otherwise the trace of collaborator calls is returned. -/
def executeIntVector (k : KState) (vec st : Nat) : Option (List Event) :=
  let pre := enableIRQ k vec false
  let hookEvs :=
    match k.interrupts.getD vec none with
    | none => []
    | some lst => lst.map fun hk => Event.handlerCall hk.handler st hk.param vec
  match k.intControl with
  | none => none
  | some base =>
    let logical := sub32 vec base
    if k.notifyOk logical then some (pre ++ hookEvs ++ [Event.notify logical])
    else some (pre ++ hookEvs ++ [Event.notify logical, Event.fatalHalt])

/-- Modelled from the spec: the three symbol types the loader distinguishes —
`BootProgram`, `BootPrivProgram`, and every other entry type of the boot image
format (whose enum lives in `BootImage.h`, outside these sources). -/
inductive BootSymbolType where
  | program
  | privProgram
  | other
deriving DecidableEq

/-- Modelled from the spec: a symbol-table entry
`{ name, entryPoint, type, segmentsOffset, segmentsCount }` of the boot image
format (`BootImage.h` is outside these sources); the fixed-length name is
abstracted to a numeric identifier. -/
structure BootSymbol where
  name : Nat
  entry : Nat
  symType : BootSymbolType
  segmentsOffset : Nat
  segmentsCount : Nat
deriving DecidableEq

instance : Inhabited BootSymbol := ⟨⟨0, 0, BootSymbolType.other, 0, 0⟩⟩

/-- Modelled from the spec: a segment-table entry
`{ virtualAddress, offset, size }` with the offset relative to the image base. -/
structure BootSegment where
  virtualAddress : Nat
  offset : Nat
  size : Nat
deriving DecidableEq

instance : Inhabited BootSegment := ⟨⟨0, 0, 0⟩⟩

/-- Modelled from the spec: a boot image — header
`{ magic[2], layoutRevision }` followed by the symbol table and the segment
table; the offset-addressed raw tables are modelled as lists, with
`symbolTableCount = symbols.length`. -/
structure BootImage where
  magic0 : Nat
  magic1 : Nat
  layoutRevision : Nat
  symbols : List BootSymbol
  segments : List BootSegment

/-- The hard-coded constants `BOOTIMAGE_MAGIC0`, `BOOTIMAGE_MAGIC1` and
`BOOTIMAGE_REVISION` a valid image must match (their numeric values live in
`BootImage.h`, outside these sources; every claim below is proved for
arbitrary values). -/
structure BootConsts where
  magic0 : Nat
  magic1 : Nat
  revision : Nat

/-- Outcome oracles for the loader's collaborators, indexed by the symbol-table
index of the program being loaded: whether `m_procs->create(...)` returns a
process, whether `mem->map(virt, phys, flags)` returns success (indexed by the
virtual and physical page addresses; the loader discards this result), whether
the arguments-page allocation succeeds, and whether `mem->mapRange(&argRange)`
succeeds. -/
structure Env where
  createOk : Nat → Bool
  mapOk : Nat → Nat → Bool
  allocArgsOk : Nat → Bool
  mapRangeOk : Nat → Bool

/-- Observable effects of the boot loader, in program order: a process created
from symbol `index` (with its entry point and privilege flag), a
`mem->map(virt, phys, ...)` call together with the result the collaborator
returned, the arguments-page allocation and mapping, the name copied into the
arguments page, and the `m_procs->schedule()` hand-off. -/
inductive LoadEvent where
  | created (index entry : Nat) (priv : Bool)
  | mapped (virt phys : Nat) (ok : Bool)
  | argsAllocated (index : Nat)
  | argsMapped (index : Nat)
  | argsCopied (name : Nat)
  | scheduleCalled
deriving DecidableEq

/-- Page offsets `j = 0, PAGESIZE, 2*PAGESIZE, ... < size` visited by the
segment-mapping loop `for (j = 0; j < segment[i].size; j += PAGESIZE)`. -/
def pageOffsets (size : Nat) : List Nat := pageLoopF 0 PAGESIZE size 0 size

/-- `Kernel::loadBootProcess(image, imagePAddr, index)`: locate the symbol and
its segment sub-table by offsets; reject entries that are neither `BootProgram`
nor `BootPrivProgram` with `InvalidBootImage`; create the process
(`ProcessError` on failure); map every page of every segment into the new
context, discarding each `map` result; allocate and map the arguments page
(`ProcessError` when either fails); zero it and copy the program name. -/
def loadBootProcess (env : Env) (img : BootImage) (imagePAddr index : Nat) :
    KResult × List LoadEvent :=
  let program := img.symbols.getD index default
  let segment := img.segments.drop program.segmentsOffset
  if program.symType ≠ BootSymbolType.program ∧
     program.symType ≠ BootSymbolType.privProgram then
    (KResult.InvalidBootImage, [])
  else if env.createOk index = false then
    (KResult.ProcessError, [])
  else
    let mapEvs := (List.range program.segmentsCount).map (fun i =>
      let seg := segment.getD i default
      (pageOffsets seg.size).map fun j =>
        LoadEvent.mapped (seg.virtualAddress + j) (imagePAddr + seg.offset + j)
          (env.mapOk (seg.virtualAddress + j) (imagePAddr + seg.offset + j)))
    let ev0 := LoadEvent.created index program.entry
        (program.symType = BootSymbolType.privProgram) :: mapEvs.flatten
    if env.allocArgsOk index = false then
      (KResult.ProcessError, ev0)
    else if env.mapRangeOk index = false then
      (KResult.ProcessError, ev0 ++ [LoadEvent.argsAllocated index])
    else
      (KResult.Success, ev0 ++ [LoadEvent.argsAllocated index,
        LoadEvent.argsMapped index, LoadEvent.argsCopied program.name])

/-- Header validation of `loadBootImage`: both magic words and the layout
revision must equal the hard-coded constants. -/
def headerValid (c : BootConsts) (img : BootImage) : Bool :=
  img.magic0 = c.magic0 ∧ img.magic1 = c.magic1 ∧ img.layoutRevision = c.revision

/-- `Kernel::loadBootImage()`: validate the header; when valid, call
`loadBootProcess` for every symbol-table index in order, discarding each
per-entry result, and return `Success`; otherwise return `InvalidBootImage`
without touching any entry. -/
def loadBootImage (c : BootConsts) (env : Env) (img : BootImage)
    (imagePAddr : Nat) : KResult × List LoadEvent :=
  if headerValid c img then
    (KResult.Success,
      ((List.range img.symbols.length).map fun i =>
        (loadBootProcess env img imagePAddr i).2).flatten)
  else
    (KResult.InvalidBootImage, [])

/-- `Kernel::run()`: call `loadBootImage()` discarding its result, hand
control to `m_procs->schedule()`, and (nominally) return 0. -/
def run (c : BootConsts) (env : Env) (img : BootImage) (imagePAddr : Nat) :
    Nat × List LoadEvent :=
  (0, (loadBootImage c env img imagePAddr).2 ++ [LoadEvent.scheduleCalled])

/-- Whether symbol `i` of the image has a loadable type: `BootProgram` or
`BootPrivProgram`. -/
def progTyped (img : BootImage) (i : Nat) : Bool :=
  decide ((img.symbols.getD i default).symType = BootSymbolType.program ∨
          (img.symbols.getD i default).symType = BootSymbolType.privProgram)

/-- Number of process-creation events for symbol index `i` in a trace. -/
def createdAt (evs : List LoadEvent) (i : Nat) : Nat :=
  (evs.filter fun e =>
    match e with
    | LoadEvent.created j _ _ => j = i
    | _ => false).length

/-- The fields of `CoreInfo` the constructor reads: the physical memory base,
the kernel image region, the boot image region, the heap region and the
inter-core channel region. -/
structure CoreInfo where
  memPhys : Nat
  memSize : Nat
  kernelPhys : Nat
  kernelSize : Nat
  bootImageAddress : Nat
  bootImageSize : Nat
  heapAddress : Nat
  heapSize : Nat
  coreChannelAddress : Nat
  coreChannelSize : Nat

/-- `m_interrupts.fill(ZERO)`: overwrite every slot of the table with the null
pointer. -/
def fillZero (tbl : IntTable) : IntTable := tbl.map fun _ => none

/-- The sequence of `m_alloc->allocate(addr)` calls the constructor
`Kernel::Kernel` makes, in program order: page by page over the first 4 MB of
physical memory, the kernel image, the boot image, the heap region, and the
inter-core channel region. -/
def kernelCtorAllocTrace (ci : CoreInfo) : List Nat :=
  pageLoopF ci.memPhys PAGESIZE (1024 * 1024 * 4) 0 (1024 * 1024 * 4) ++
  pageLoopF ci.kernelPhys PAGESIZE ci.kernelSize 0 ci.kernelSize ++
  pageLoopF ci.bootImageAddress PAGESIZE ci.bootImageSize 0 ci.bootImageSize ++
  pageLoopF ci.heapAddress PAGESIZE ci.heapSize 0 ci.heapSize ++
  pageLoopF ci.coreChannelAddress PAGESIZE ci.coreChannelSize 0 ci.coreChannelSize

/-- State of the `Kernel` object the constructor leaves behind, restricted to
what the claims observe: the reservation calls made into the physical
allocator and the interrupt table after `m_interrupts.fill(ZERO)` ran over the
freshly constructed 256-slot vector `init`. -/
def kernelCtor (ci : CoreInfo) (init : IntTable) : List Nat × IntTable :=
  (kernelCtorAllocTrace ci, fillZero init)

/-- Collaborator oracle with every outcome successful. -/
def envAll : Env := ⟨fun _ => true, fun _ _ => true, fun _ => true, fun _ => true⟩

/-- Oracle in which every `mem->map` call fails but everything else succeeds. -/
def envMapFail : Env := ⟨fun _ => true, fun _ _ => false, fun _ => true, fun _ => true⟩

/-- Oracle in which `m_procs->create` fails. -/
def envNoCreate : Env := ⟨fun _ => false, fun _ _ => true, fun _ => true, fun _ => true⟩

/-- Oracle in which the arguments-page allocation fails. -/
def envNoAlloc : Env := ⟨fun _ => true, fun _ _ => true, fun _ => false, fun _ => true⟩

/-- Oracle in which `mem->mapRange` on the arguments page fails. -/
def envNoMapRange : Env := ⟨fun _ => true, fun _ _ => true, fun _ => true, fun _ => false⟩

/-- Sample values for the boot-image constants. -/
def consts0 : BootConsts := ⟨17, 34, 2⟩

/-- A `BootProgram`-typed symbol with one segment. -/
def sampleProgram : BootSymbol := ⟨7, 100, BootSymbolType.program, 0, 1⟩

/-- A symbol whose type is neither `BootProgram` nor `BootPrivProgram`. -/
def sampleOther : BootSymbol := ⟨8, 200, BootSymbolType.other, 0, 0⟩

/-- A valid one-program image: correct header, one program symbol, one
page-sized segment. -/
def img1 : BootImage := ⟨17, 34, 2, [sampleProgram], [⟨4096, 0, 4096⟩]⟩

/-- A valid image holding a non-program entry (index 0) next to a program
entry (index 1). -/
def imgMixed : BootImage := ⟨17, 34, 2, [sampleOther, sampleProgram], [⟨4096, 0, 4096⟩]⟩

/-- An image whose first magic word does not match `consts0`. -/
def imgBad : BootImage := ⟨0, 34, 2, [sampleProgram], [⟨4096, 0, 4096⟩]⟩

/-- The freshly zeroed 256-slot interrupt table. -/
def tbl0 : IntTable := List.replicate 256 none

/-- Kernel state with no interrupt controller installed. -/
def kNone : KState := ⟨none, tbl0, fun _ => true, fun _ _ => true⟩

/-- Kernel state with a controller of base 32, one hook on vector 40, and a
process manager whose notifications fail. -/
def kSome : KState := ⟨some 32, tbl0.set 40 (some [⟨5, 9⟩]), fun _ => false, fun _ _ => true⟩

/-- Sample `CoreInfo` with all regions empty and based at 0. -/
def ci0 : CoreInfo := ⟨0, 0, 0, 0, 0, 0, 0, 0, 0, 0⟩

/-- A loop `for (i; i < limit; i += PAGESIZE)` started with enough fuel visits
exactly the arithmetic progression `base + i, base + i + PAGESIZE, ...` of
length `⌈(limit - i) / PAGESIZE⌉`. -/
theorem pageLoopF_eq_range' (base limit : Nat) :
    ∀ fuel i, limit - i ≤ fuel →
      pageLoopF base PAGESIZE limit i fuel =
        List.range' (base + i) (cdiv (limit - i) PAGESIZE) PAGESIZE := by
  intro fuel
  induction fuel with
  | zero =>
    intro i hi
    have h0 : limit - i = 0 := Nat.le_zero.mp hi
    simp [pageLoopF, h0, cdiv, PAGESIZE]
  | succ fuel ih =>
    intro i hi
    by_cases hlt : i < limit
    · have hfuel : limit - (i + PAGESIZE) ≤ fuel := by
        simp only [PAGESIZE] at *; omega
      have hrec := ih (i + PAGESIZE) hfuel
      have hcount : cdiv (limit - i) PAGESIZE =
          cdiv (limit - (i + PAGESIZE)) PAGESIZE + 1 := by
        simp only [cdiv, PAGESIZE]
        by_cases hbig : i + 4096 < limit
        · have : limit - i + 4096 - 1 = (limit - (i + 4096) + 4096 - 1) + 4096 := by
            omega
          rw [this, Nat.add_div_right _ (by omega : 0 < 4096)]
        · have h1 : limit - (i + 4096) = 0 := by omega
          have h2 : (limit - i + 4096 - 1) / 4096 = 1 := by
            apply Nat.div_eq_of_lt_le
            · omega
            · omega
          rw [h1, h2]
      rw [pageLoopF, if_pos hlt, hrec, hcount, List.range'_succ]
      have : base + i + PAGESIZE = base + (i + PAGESIZE) := by omega
      rw [this]
    · have h0 : limit - i = 0 := by omega
      rw [pageLoopF, if_neg hlt]
      simp [h0, cdiv, PAGESIZE]

/-- Unsigned 32-bit subtraction agrees with truncated subtraction when no
wrap-around occurs. -/
theorem sub32_eq_sub (a b : Nat) (hb : b ≤ a) (ha : a < w32) : sub32 a b = a - b := by
  have hbw : b < w32 := Nat.lt_of_le_of_lt hb ha
  have h1 : b % w32 = b := Nat.mod_eq_of_lt hbw
  have h2 : a + (w32 - b) = (a - b) + w32 := by omega
  rw [sub32, h1, h2, Nat.add_mod_right]
  exact Nat.mod_eq_of_lt (by omega)

/-- Setting a slot and reading it back yields the written hook list. -/
theorem hookList_set (tbl : IntTable) (v : Nat) (hv : v < tbl.length)
    (l : List InterruptHook) : hookList (tbl.set v (some l)) v = l := by
  simp [hookList, List.getD, List.getElem?_set_self, hv]

/-- `hookIntVector` never changes the table's slot count. -/
theorem hookIntVector_length (tbl : IntTable) (v h p : Nat) :
    (hookIntVector tbl v h p).length = tbl.length := by
  simp only [hookIntVector]
  split_ifs <;> simp

/-- One `hookIntVector` call leaves the vector's hook list unchanged when an
identical hook is present and appends the hook otherwise. -/
theorem hookList_hookIntVector_self (tbl : IntTable) (v h p : Nat)
    (hv : v < tbl.length) :
    hookList (hookIntVector tbl v h p) v =
      if (⟨h, p⟩ : InterruptHook) ∈ hookList tbl v then hookList tbl v
      else hookList tbl v ++ [⟨h, p⟩] := by
  cases hx : tbl.getD v none with
  | none =>
    have hcur0 : hookList tbl v = [] := by rw [hookList, hx]; rfl
    have hset : ((tbl.set v (some [])).getD v none).getD ([] : List InterruptHook) = [] := by
      have h1 := hookList_set tbl v hv []
      rwa [hookList] at h1
    rw [hcur0]
    simp only [hookIntVector, hx, if_true, hset, List.not_mem_nil, if_false,
      List.nil_append, List.set_set]
    exact hookList_set tbl v hv [⟨h, p⟩]
  | some l =>
    have hcur : hookList tbl v = l := by rw [hookList, hx]; rfl
    rw [hcur]
    simp only [hookIntVector, hx, Option.some_ne_none, if_false, Option.getD_some]
    by_cases hmem : (⟨h, p⟩ : InterruptHook) ∈ l
    · simp only [if_pos hmem]
      exact hcur
    · simp only [if_neg hmem]
      exact hookList_set tbl v hv (l ++ [⟨h, p⟩])

/-- C2: `hookIntVector` is idempotent in the `(handler, parameter)` pair: with
no hook yet registered for vector `v`, two identical registrations leave
exactly one hook stored, while two registrations differing in the parameter
store two hooks in insertion order. -/
theorem hookIntVector_idempotent (tbl : IntTable) (v h p p1 p2 : Nat)
    (hv : v < 256) (hlen : tbl.length = 256)
    (h0 : hookList tbl v = []) (hne : p1 ≠ p2) :
    hookList (hookIntVector (hookIntVector tbl v h p) v h p) v =
      [⟨h, p⟩] ∧
    hookList (hookIntVector (hookIntVector tbl v h p1) v h p2) v =
      [⟨h, p1⟩, ⟨h, p2⟩] := by
  have hv1 : v < tbl.length := by omega
  constructor
  · have s1 : hookList (hookIntVector tbl v h p) v = [⟨h, p⟩] := by
      rw [hookList_hookIntVector_self tbl v h p hv1, h0]
      simp
    have hv2 : v < (hookIntVector tbl v h p).length := by
      rw [hookIntVector_length]; omega
    rw [hookList_hookIntVector_self _ v h p hv2, s1]
    simp
  · have s1 : hookList (hookIntVector tbl v h p1) v = [⟨h, p1⟩] := by
      rw [hookList_hookIntVector_self tbl v h p1 hv1, h0]
      simp
    have hv2 : v < (hookIntVector tbl v h p1).length := by
      rw [hookIntVector_length]; omega
    rw [hookList_hookIntVector_self _ v h p2 hv2, s1]
    simp [InterruptHook.mk.injEq, Ne.symm hne]

set_option maxRecDepth 4000 in
/-- C2 witness: on the freshly zeroed table, two identical registrations for
vector 40 store one hook and two parameter-distinct registrations store two. -/
theorem hookIntVector_idempotent_witness :
    hookList (hookIntVector (hookIntVector tbl0 40 5 9) 40 5 9) 40 =
      [⟨5, 9⟩] ∧
    hookList (hookIntVector (hookIntVector tbl0 40 5 1) 40 5 2) 40 =
      [⟨5, 1⟩, ⟨5, 2⟩] :=
  hookIntVector_idempotent tbl0 40 5 9 1 2 (by decide)
    (by decide) (by decide) (by decide)

/-- C9: `executeIntVector` requires an installed interrupt controller — with
`m_intControl` null its result is undefined because `getBase()` dereferences
the null pointer — whereas `enableIRQ` degrades to a no-op and `sendIRQ`
returns `Success` without touching hardware. -/
theorem executeIntVector_needs_controller :
    (∀ (k : KState) (vec st : Nat), k.intControl = none →
      executeIntVector k vec st = none) ∧
    (∀ (k : KState) (irq : Nat) (en : Bool), k.intControl = none →
      enableIRQ k irq en = []) ∧
    (∀ (k : KState) (coreId irq : Nat), k.intControl = none →
      sendIRQ k coreId irq = KResult.Success) := by
  refine ⟨?_, ?_, ?_⟩
  · intro k vec st hc
    rw [executeIntVector]
    simp [hc]
  · intro k irq en hc
    rw [enableIRQ.eq_def]
    simp [hc]
  · intro k coreId irq hc
    rw [sendIRQ.eq_def]
    simp [hc]

/-- C9 witness: on a state with no controller, dispatch has no defined result
while `enableIRQ` and `sendIRQ` degrade gracefully. -/
theorem executeIntVector_needs_controller_witness :
    executeIntVector kNone 40 3 = none ∧
    enableIRQ kNone 7 true = [] ∧
    sendIRQ kNone 0 1 = KResult.Success :=
  ⟨executeIntVector_needs_controller.1 kNone 40 3 rfl,
   executeIntVector_needs_controller.2.1 kNone 7 true rfl,
   executeIntVector_needs_controller.2.2 kNone 0 1 rfl⟩

/-- C6: with a controller installed, `executeIntVector(v, state)` disables the
interrupt line for `v` at the controller before any registered hook runs, and
then invokes the hooks registered for `v` in insertion order, each receiving
the CPU state, its own opaque parameter, and the vector number. -/
theorem executeIntVector_masks_before_hooks (k : KState) (vec st base : Nat)
    (hc : k.intControl = some base) :
    ∃ post, executeIntVector k vec st =
      some (Event.disable vec ::
        (((hookList k.interrupts vec).map fun hk =>
          Event.handlerCall hk.handler st hk.param vec) ++ post)) := by
  rw [executeIntVector]
  simp only [enableIRQ, hc]
  cases hslot : k.interrupts.getD vec none with
  | none =>
    have h0 : hookList k.interrupts vec = [] := by rw [hookList, hslot]; rfl
    rw [h0]
    by_cases hn : k.notifyOk (sub32 vec base) = true
    · exact ⟨[Event.notify (sub32 vec base)], by simp [hn]⟩
    · exact ⟨[Event.notify (sub32 vec base), Event.fatalHalt],
        by simp [Bool.eq_false_iff.mpr (fun hh => hn hh)]⟩
  | some l =>
    have h0 : hookList k.interrupts vec = l := by rw [hookList, hslot]; rfl
    rw [h0]
    by_cases hn : k.notifyOk (sub32 vec base) = true
    · exact ⟨[Event.notify (sub32 vec base)], by simp [hn]⟩
    · exact ⟨[Event.notify (sub32 vec base), Event.fatalHalt],
        by simp [Bool.eq_false_iff.mpr (fun hh => hn hh)]⟩

/-- C6 witness: on a state with a controller of base 32 and one hook for
vector 40, dispatch emits the disable call first, then the hook invocation. -/
theorem executeIntVector_masks_before_hooks_witness :
    ∃ post, executeIntVector kSome 40 3 =
      some (Event.disable 40 ::
        (((hookList kSome.interrupts 40).map fun hk =>
          Event.handlerCall hk.handler 3 hk.param 40) ++ post)) :=
  executeIntVector_masks_before_hooks kSome 40 3 32 rfl

/-- C7: with a controller installed and no wrap-around in the vector
arithmetic, `executeIntVector(v, state)` forwards, after running the hooks, a
process-interrupt notification for the logical IRQ `v - base`; when that
notification fails, the trace ends with the fatal log-and-halt, and when it
succeeds nothing follows the notification. -/
theorem executeIntVector_notify_after_hooks (k : KState) (vec st base : Nat)
    (hc : k.intControl = some base) (hb : base ≤ vec) (hv : vec < w32) :
    ∃ tail, executeIntVector k vec st =
      some (Event.disable vec ::
        (((hookList k.interrupts vec).map fun hk =>
          Event.handlerCall hk.handler st hk.param vec) ++
          (Event.notify (vec - base) :: tail))) ∧
      (k.notifyOk (vec - base) = true → tail = []) ∧
      (k.notifyOk (vec - base) = false → tail = [Event.fatalHalt]) := by
  have hsub : sub32 vec base = vec - base := sub32_eq_sub vec base hb hv
  rw [executeIntVector]
  simp only [enableIRQ, hc, hsub]
  cases hslot : k.interrupts.getD vec none with
  | none =>
    have h0 : hookList k.interrupts vec = [] := by rw [hookList, hslot]; rfl
    rw [h0]
    by_cases hn : k.notifyOk (vec - base) = true
    · refine ⟨[], ?_, fun _ => rfl, ?_⟩
      · simp [hn]
      · intro hfalse
        rw [hn] at hfalse
        cases hfalse
    · have hn' : k.notifyOk (vec - base) = false := Bool.eq_false_iff.mpr (fun hh => hn hh)
      refine ⟨[Event.fatalHalt], ?_, ?_, fun _ => rfl⟩
      · simp [hn']
      · intro htrue
        rw [hn'] at htrue
        cases htrue
  | some l =>
    have h0 : hookList k.interrupts vec = l := by rw [hookList, hslot]; rfl
    rw [h0]
    by_cases hn : k.notifyOk (vec - base) = true
    · refine ⟨[], ?_, fun _ => rfl, ?_⟩
      · simp [hn]
      · intro hfalse
        rw [hn] at hfalse
        cases hfalse
    · have hn' : k.notifyOk (vec - base) = false := Bool.eq_false_iff.mpr (fun hh => hn hh)
      refine ⟨[Event.fatalHalt], ?_, ?_, fun _ => rfl⟩
      · simp [hn']
      · intro htrue
        rw [hn'] at htrue
        cases htrue

set_option maxRecDepth 4000 in
/-- C7 witness: on a state whose process manager rejects every notification,
dispatching vector 40 with controller base 32 notifies logical IRQ 8 and then
halts fatally. -/
theorem executeIntVector_notify_after_hooks_witness :
    ∃ tail, executeIntVector kSome 40 3 =
      some (Event.disable 40 ::
        (((hookList kSome.interrupts 40).map fun hk =>
          Event.handlerCall hk.handler 3 hk.param 40) ++
          (Event.notify (40 - 32) :: tail))) ∧
      (kSome.notifyOk (40 - 32) = true → tail = []) ∧
      (kSome.notifyOk (40 - 32) = false → tail = [Event.fatalHalt]) :=
  executeIntVector_notify_after_hooks kSome 40 3 32 rfl (by decide) (by decide)

/-- C1 counterexample: at `base = 4096`, `size = 65536` with control-block
sizes 16 and 32, the bump allocator is not constructed over the range
`[base, base + metadata)`: the range passed to its constructor starts at
`base + metadata` and spans `size - metadata` bytes. -/
theorem heap_bubble_range_counterexample :
    ¬ ((heap 16 32 4096 65536).bubbleRange.address = 4096 ∧
       (heap 16 32 4096 65536).bubbleRange.size = 16 + 32) := by
  decide

/-- C1 (amended): `heap(base, size)` computes metadata = sizeof bump control
block + sizeof pool control block; the bump-allocator control block is
constructed in place at `base` and the pool control block right after it, the
two exactly filling `[base, base + metadata)`; the bump allocator is
constructed over the remaining `size - metadata` bytes at their raw address
`base + metadata`; the pool allocator is constructed over the remaining
`size - metadata` bytes addressed with a zero-based logical offset; the pool's
parent pointer is the bump allocator; and the pool allocator is installed as
the process-wide default. -/
theorem heap_construction_spec (szBubble szPool base size : Nat)
    (hle : szBubble + szPool ≤ size) (hsz : size < w32) :
    (heap szBubble szPool base size).metaData = szBubble + szPool ∧
    (heap szBubble szPool base size).bubbleAddr = base ∧
    (heap szBubble szPool base size).poolAddr = base + szBubble ∧
    (heap szBubble szPool base size).poolAddr + szPool =
      base + (heap szBubble szPool base size).metaData ∧
    (heap szBubble szPool base size).bubbleRange =
      ⟨base + (szBubble + szPool), size - (szBubble + szPool), 4⟩ ∧
    (heap szBubble szPool base size).poolRange =
      ⟨0, size - (szBubble + szPool), 4⟩ ∧
    (heap szBubble szPool base size).poolParent =
      (heap szBubble szPool base size).bubbleAddr ∧
    (heap szBubble szPool base size).defaultAlloc =
      (heap szBubble szPool base size).poolAddr ∧
    (heap szBubble szPool base size).ret = 0 := by
  have hsub : sub32 size (szBubble + szPool) = size - (szBubble + szPool) :=
    sub32_eq_sub size (szBubble + szPool) hle hsz
  refine ⟨rfl, rfl, rfl, by simp [heap]; omega, ?_, ?_, rfl, rfl, rfl⟩
  · simp [heap, hsub]
  · simp [heap, hsub]

/-- C1 witness: the amended layout at `base = 4096`, `size = 65536` with
control-block sizes 16 and 32. -/
theorem heap_construction_spec_witness :
    (heap 16 32 4096 65536).metaData = 16 + 32 ∧
    (heap 16 32 4096 65536).bubbleAddr = 4096 ∧
    (heap 16 32 4096 65536).poolAddr = 4096 + 16 ∧
    (heap 16 32 4096 65536).poolAddr + 32 =
      4096 + (heap 16 32 4096 65536).metaData ∧
    (heap 16 32 4096 65536).bubbleRange = ⟨4096 + (16 + 32), 65536 - (16 + 32), 4⟩ ∧
    (heap 16 32 4096 65536).poolRange = ⟨0, 65536 - (16 + 32), 4⟩ ∧
    (heap 16 32 4096 65536).poolParent = (heap 16 32 4096 65536).bubbleAddr ∧
    (heap 16 32 4096 65536).defaultAlloc = (heap 16 32 4096 65536).poolAddr ∧
    (heap 16 32 4096 65536).ret = 0 :=
  heap_construction_spec 16 32 4096 65536 (by decide) (by decide)

/-- Counting creation events distributes over concatenation. -/
theorem createdAt_append (a b : List LoadEvent) (i : Nat) :
    createdAt (a ++ b) i = createdAt a i + createdAt b i := by
  simp [createdAt, List.filter_append]

/-- A trace holding no creation event counts zero creations. -/
theorem createdAt_eq_zero_of_no_created (l : List LoadEvent) (i : Nat)
    (h : ∀ j e pr, LoadEvent.created j e pr ∉ l) : createdAt l i = 0 := by
  induction l with
  | nil => simp [createdAt]
  | cons a l ih =>
    have ha : ∀ j e pr, LoadEvent.created j e pr ∉ l := by
      intro j e pr hmem
      exact h j e pr (List.mem_cons_of_mem a hmem)
    cases a with
    | created j e pr => exact absurd (List.mem_cons_self _ _) (h j e pr)
    | mapped v p ok => simpa [createdAt, List.filter_cons] using ih ha
    | argsAllocated j => simpa [createdAt, List.filter_cons] using ih ha
    | argsMapped j => simpa [createdAt, List.filter_cons] using ih ha
    | argsCopied n => simpa [createdAt, List.filter_cons] using ih ha
    | scheduleCalled => simpa [createdAt, List.filter_cons] using ih ha

/-- Prepending a creation event for index `j` adds one exactly when `j = i`. -/
theorem createdAt_cons_created (j e : Nat) (pr : Bool) (l : List LoadEvent) (i : Nat) :
    createdAt (LoadEvent.created j e pr :: l) i =
      (if j = i then 1 else 0) + createdAt l i := by
  by_cases hj : j = i
  · simp [createdAt, List.filter_cons, hj]
    omega
  · simp [createdAt, List.filter_cons, hj]

/-- Per-entry creation count of `loadBootProcess`: exactly one creation event,
for the entry's own index, when the entry is program-typed and process
creation succeeds; none otherwise. -/
theorem createdAt_loadBootProcess (env : Env) (img : BootImage) (pa k i : Nat) :
    createdAt (loadBootProcess env img pa k).2 i =
      if i = k ∧ progTyped img k = true ∧ env.createOk k = true then 1 else 0 := by
  have hmapflat : ∀ (segment : List BootSegment) (cnt : Nat),
      ∀ j e pr, LoadEvent.created j e pr ∉
        ((List.range cnt).map (fun s =>
          let seg := segment.getD s default
          (pageOffsets seg.size).map fun jo =>
            LoadEvent.mapped (seg.virtualAddress + jo) (pa + seg.offset + jo)
              (env.mapOk (seg.virtualAddress + jo) (pa + seg.offset + jo)))).flatten := by
    intro segment cnt j e pr hmem
    rw [List.mem_flatten] at hmem
    obtain ⟨sub, hsub, hin⟩ := hmem
    rw [List.mem_map] at hsub
    obtain ⟨s, _, hs⟩ := hsub
    subst hs
    simp only [List.mem_map] at hin
    obtain ⟨jo, _, hjo⟩ := hin
    cases hjo
  by_cases ht : (img.symbols.getD k default).symType ≠ BootSymbolType.program ∧
      (img.symbols.getD k default).symType ≠ BootSymbolType.privProgram
  · have hpt : progTyped img k = false := by
      simp only [progTyped, decide_eq_false_iff_not]
      intro hor
      rcases hor with h1 | h1
      · exact ht.1 h1
      · exact ht.2 h1
    simp only [loadBootProcess]
    rw [if_pos ht]
    simp [createdAt, hpt]
  · by_cases hc : env.createOk k = false
    · have hc0 : ¬ env.createOk k = true := by rw [hc]; exact Bool.false_ne_true
      simp only [loadBootProcess]
      rw [if_neg ht, if_pos hc]
      simp [createdAt, hc0]
    · have hc1 : env.createOk k = true := by
        revert hc; cases env.createOk k <;> simp
      have hpt : progTyped img k = true := by
        simp only [progTyped, decide_eq_true_eq]
        by_cases h1 : (img.symbols.getD k default).symType = BootSymbolType.program
        · exact Or.inl h1
        · right
          by_cases h2 : (img.symbols.getD k default).symType = BootSymbolType.privProgram
          · exact h2
          · exact absurd ⟨h1, h2⟩ ht
      have hflat := hmapflat
        (img.segments.drop (img.symbols.getD k default).segmentsOffset)
        (img.symbols.getD k default).segmentsCount
      by_cases ha : env.allocArgsOk k = false
      · simp only [loadBootProcess]
        rw [if_neg ht, if_neg (by simp [hc1]), if_pos ha]
        rw [createdAt_cons_created, createdAt_eq_zero_of_no_created _ i hflat]
        by_cases hik : i = k
        · subst hik; simp [hpt, hc1]
        · have hki : ¬ k = i := fun hq => hik hq.symm
          simp [hik, hki]
      · have ha1 : env.allocArgsOk k = true := by
          revert ha; cases env.allocArgsOk k <;> simp
        by_cases hm : env.mapRangeOk k = false
        · simp only [loadBootProcess]
          rw [if_neg ht, if_neg (by simp [hc1]), if_neg (by simp [ha1]), if_pos hm]
          rw [createdAt_append, createdAt_cons_created,
            createdAt_eq_zero_of_no_created _ i hflat]
          have hargs : createdAt [LoadEvent.argsAllocated k] i = 0 := by
            simp [createdAt, List.filter_cons]
          rw [hargs]
          by_cases hik : i = k
          · subst hik; simp [hpt, hc1]
          · have hki : ¬ k = i := fun hq => hik hq.symm
            simp [hik, hki]
        · have hm1 : env.mapRangeOk k = true := by
            revert hm; cases env.mapRangeOk k <;> simp
          simp only [loadBootProcess]
          rw [if_neg ht, if_neg (by simp [hc1]), if_neg (by simp [ha1]),
            if_neg (by simp [hm1])]
          rw [createdAt_append, createdAt_cons_created,
            createdAt_eq_zero_of_no_created _ i hflat]
          have hargs : createdAt [LoadEvent.argsAllocated k, LoadEvent.argsMapped k,
              LoadEvent.argsCopied (img.symbols.getD k default).name] i = 0 := by
            simp [createdAt, List.filter_cons]
          rw [hargs]
          by_cases hik : i = k
          · subst hik; simp [hpt, hc1]
          · have hki : ¬ k = i := fun hq => hik hq.symm
            simp [hik, hki]

/-- Creation count over the image loop: summing per-entry counts over
`List.range n` keeps exactly the contribution of index `i` when `i < n`. -/
theorem createdAt_flatten_range (g : Nat → List LoadEvent) (i : Nat)
    (cnt : Nat → Nat)
    (hg : ∀ k, createdAt (g k) i = if i = k then cnt k else 0) :
    ∀ n, createdAt ((List.range n).map g).flatten i =
      if i < n then cnt i else 0 := by
  intro n
  induction n with
  | zero => simp [createdAt]
  | succ n ih =>
    rw [List.range_succ, List.map_append, List.flatten_append, createdAt_append, ih]
    have hsingle : createdAt ((List.map g [n]).flatten) i = createdAt (g n) i := by
      simp [createdAt]
    rw [hsingle, hg n]
    by_cases h1 : i < n
    · have h2 : ¬ i = n := by omega
      have h3 : i < n + 1 := by omega
      simp [h1, h2, h3]
    · by_cases h2 : i = n
      · subst h2
        simp [h1]
      · have h3 : ¬ i < n + 1 := by omega
        simp [h1, h2, h3]

/-- Creation count of the whole `loadBootImage` loop for a header-valid image:
one creation for index `i` exactly when `i` is in range, program-typed, and
its process creation succeeds. -/
theorem createdAt_loadBootImage (c : BootConsts) (env : Env) (img : BootImage)
    (pa i : Nat) (hvld : headerValid c img = true) :
    createdAt (loadBootImage c env img pa).2 i =
      if i < img.symbols.length ∧ progTyped img i = true ∧ env.createOk i = true
      then 1 else 0 := by
  rw [loadBootImage, if_pos hvld]
  have hg : ∀ k, createdAt (loadBootProcess env img pa k).2 i =
      if i = k then (if progTyped img k = true ∧ env.createOk k = true then 1 else 0)
      else 0 := by
    intro k
    rw [createdAt_loadBootProcess]
    by_cases hik : i = k
    · subst hik; simp
    · simp [hik]
  rw [createdAt_flatten_range (fun k => (loadBootProcess env img pa k).2) i _ hg]
  by_cases h1 : i < img.symbols.length
  · simp only [h1, if_true, true_and]
  · simp [h1]

/-- C4: for every boot image whose magic words or layout revision do not match
the hard-coded constants, `loadBootImage` returns `InvalidBootImage`, invokes
no per-entry loader, and creates zero processes. -/
theorem loadBootImage_rejects_invalid (c : BootConsts) (env : Env)
    (img : BootImage) (pa : Nat) (h : headerValid c img = false) :
    (loadBootImage c env img pa).1 = KResult.InvalidBootImage ∧
    (loadBootImage c env img pa).2 = [] ∧
    ∀ j, createdAt (loadBootImage c env img pa).2 j = 0 := by
  have hnot : ¬ headerValid c img = true := by
    rw [h]; exact Bool.false_ne_true
  rw [loadBootImage, if_neg hnot]
  exact ⟨rfl, rfl, fun j => by simp [createdAt]⟩

/-- C4 witness: the image whose first magic word is wrong is rejected with no
process created. -/
theorem loadBootImage_rejects_invalid_witness :
    (loadBootImage consts0 envAll imgBad 8192).1 = KResult.InvalidBootImage ∧
    (loadBootImage consts0 envAll imgBad 8192).2 = [] ∧
    ∀ j, createdAt (loadBootImage consts0 envAll imgBad 8192).2 j = 0 :=
  loadBootImage_rejects_invalid consts0 envAll imgBad 8192 (by decide)

/-- C5: a symbol-table entry whose type is neither `Program` nor
`PrivilegedProgram` makes `loadBootProcess` return `InvalidBootImage` with no
process created, and the `loadBootImage` loop continues: a program-typed
sibling entry `j` whose creation succeeds still contributes exactly one
created process, while entry `i` contributes none. -/
theorem loadBootProcess_skips_nonprogram (c : BootConsts) (env : Env)
    (img : BootImage) (pa i j : Nat)
    (hi : progTyped img i = false)
    (hvld : headerValid c img = true)
    (hj : j < img.symbols.length)
    (hjt : progTyped img j = true)
    (hjc : env.createOk j = true) :
    loadBootProcess env img pa i = (KResult.InvalidBootImage, []) ∧
    createdAt (loadBootImage c env img pa).2 i = 0 ∧
    createdAt (loadBootImage c env img pa).2 j = 1 := by
  have hnt : (img.symbols.getD i default).symType ≠ BootSymbolType.program ∧
      (img.symbols.getD i default).symType ≠ BootSymbolType.privProgram := by
    have := hi
    simp only [progTyped, decide_eq_false_iff_not] at this
    exact ⟨fun h1 => this (Or.inl h1), fun h2 => this (Or.inr h2)⟩
  refine ⟨?_, ?_, ?_⟩
  · simp only [loadBootProcess]
    rw [if_pos hnt]
  · rw [createdAt_loadBootImage c env img pa i hvld]
    simp [hi]
  · rw [createdAt_loadBootImage c env img pa j hvld]
    simp [hj, hjt, hjc]

/-- C5 witness: in the mixed image, entry 0 (non-program) is skipped with
`InvalidBootImage` while its program-typed sibling at index 1 still loads. -/
theorem loadBootProcess_skips_nonprogram_witness :
    loadBootProcess envAll imgMixed 8192 0 = (KResult.InvalidBootImage, []) ∧
    createdAt (loadBootImage consts0 envAll imgMixed 8192).2 0 = 0 ∧
    createdAt (loadBootImage consts0 envAll imgMixed 8192).2 1 = 1 :=
  loadBootProcess_skips_nonprogram consts0 envAll imgMixed 8192 0 1
    (by decide) (by decide) (by decide) (by decide) (by decide)

/-- C3 counterexample: on the valid one-program image with a one-page segment,
under an oracle whose every `mem->map` call fails, `loadBootProcess` records
the failed map call yet returns `Success`, not `ProcessError` — segment-map
failure is not fatal, contrary to the claim. -/
theorem loadBootProcess_map_failure_counterexample :
    LoadEvent.mapped 4096 8192 false ∈ (loadBootProcess envMapFail img1 8192 0).2 ∧
    (loadBootProcess envMapFail img1 8192 0).1 = KResult.Success ∧
    (loadBootProcess envMapFail img1 8192 0).1 ≠ KResult.ProcessError := by
  decide

/-- C3 (amended): the per-entry loader discards segment-map outcomes — its
result does not depend on the `mem->map` oracle at all — while process-creation
failure and argument-provisioning failure (allocation or `mapRange`) each
return `ProcessError` for a program-typed entry. -/
theorem loadBootProcess_error_paths :
    (∀ (e1 e2 : Env) (img : BootImage) (pa i : Nat),
      e1.createOk = e2.createOk → e1.allocArgsOk = e2.allocArgsOk →
      e1.mapRangeOk = e2.mapRangeOk →
      (loadBootProcess e1 img pa i).1 = (loadBootProcess e2 img pa i).1) ∧
    (∀ (env : Env) (img : BootImage) (pa i : Nat),
      progTyped img i = true → env.createOk i = false →
      (loadBootProcess env img pa i).1 = KResult.ProcessError) ∧
    (∀ (env : Env) (img : BootImage) (pa i : Nat),
      progTyped img i = true → env.createOk i = true → env.allocArgsOk i = false →
      (loadBootProcess env img pa i).1 = KResult.ProcessError) ∧
    (∀ (env : Env) (img : BootImage) (pa i : Nat),
      progTyped img i = true → env.createOk i = true → env.allocArgsOk i = true →
      env.mapRangeOk i = false →
      (loadBootProcess env img pa i).1 = KResult.ProcessError) := by
  have hnotskip : ∀ (img : BootImage) (i : Nat), progTyped img i = true →
      ¬ ((img.symbols.getD i default).symType ≠ BootSymbolType.program ∧
         (img.symbols.getD i default).symType ≠ BootSymbolType.privProgram) := by
    intro img i hp hand
    simp only [progTyped, decide_eq_true_eq] at hp
    rcases hp with h1 | h1
    · exact hand.1 h1
    · exact hand.2 h1
  refine ⟨?_, ?_, ?_, ?_⟩
  · intro e1 e2 img pa i h1 h2 h3
    simp only [loadBootProcess, h1, h2, h3]
    split_ifs <;> rfl
  · intro env img pa i hp hc
    simp only [loadBootProcess]
    rw [if_neg (hnotskip img i hp), if_pos hc]
  · intro env img pa i hp hc ha
    simp only [loadBootProcess]
    rw [if_neg (hnotskip img i hp), if_neg (by simp [hc]), if_pos ha]
  · intro env img pa i hp hc ha hm
    simp only [loadBootProcess]
    rw [if_neg (hnotskip img i hp), if_neg (by simp [hc]), if_neg (by simp [ha]),
      if_pos hm]

/-- C3 witness: concrete exercises of every conjunct of the amended claim on
the one-program image. -/
theorem loadBootProcess_error_paths_witness :
    (loadBootProcess envMapFail img1 8192 0).1 = (loadBootProcess envAll img1 8192 0).1 ∧
    (loadBootProcess envNoCreate img1 8192 0).1 = KResult.ProcessError ∧
    (loadBootProcess envNoAlloc img1 8192 0).1 = KResult.ProcessError ∧
    (loadBootProcess envNoMapRange img1 8192 0).1 = KResult.ProcessError :=
  ⟨loadBootProcess_error_paths.1 envMapFail envAll img1 8192 0 rfl rfl rfl,
   loadBootProcess_error_paths.2.1 envNoCreate img1 8192 0 (by decide) rfl,
   loadBootProcess_error_paths.2.2.1 envNoAlloc img1 8192 0 (by decide) rfl rfl,
   loadBootProcess_error_paths.2.2.2 envNoMapRange img1 8192 0 (by decide) rfl rfl rfl⟩

/-- C10: boot-image load success is decided by header validity alone — a
header-valid image yields `Success` no matter what every per-entry load
returned — and `run()` ignores the loader's result entirely: it always ends by
handing control to the scheduler, with the hand-off the final event, even for
a rejected image that created zero processes. -/
theorem loadBootImage_success_header_only :
    (∀ (c : BootConsts) (env : Env) (img : BootImage) (pa : Nat),
      headerValid c img = true → (loadBootImage c env img pa).1 = KResult.Success) ∧
    (∀ (c : BootConsts) (env : Env) (img : BootImage) (pa : Nat),
      (run c env img pa).1 = 0 ∧
      (run c env img pa).2.getLast? = some LoadEvent.scheduleCalled) ∧
    (∀ (c : BootConsts) (env : Env) (img : BootImage) (pa : Nat),
      headerValid c img = false →
      (run c env img pa).2 = [LoadEvent.scheduleCalled]) := by
  refine ⟨?_, ?_, ?_⟩
  · intro c env img pa h
    rw [loadBootImage, if_pos h]
  · intro c env img pa
    refine ⟨rfl, ?_⟩
    rw [run]
    simp
  · intro c env img pa h
    have hnot : ¬ headerValid c img = true := by
      rw [h]; exact Bool.false_ne_true
    rw [run, loadBootImage, if_neg hnot]
    rfl

/-- C10 witness: an all-failing oracle still yields `Success` on the valid
image; `run` ends in the scheduler hand-off both there and on the invalid
image, where the whole trace is just the hand-off. -/
theorem loadBootImage_success_header_only_witness :
    (loadBootImage consts0 envNoCreate img1 8192).1 = KResult.Success ∧
    ((run consts0 envNoCreate img1 8192).1 = 0 ∧
      (run consts0 envNoCreate img1 8192).2.getLast? = some LoadEvent.scheduleCalled) ∧
    (run consts0 envAll imgBad 8192).2 = [LoadEvent.scheduleCalled] :=
  ⟨loadBootImage_success_header_only.1 consts0 envNoCreate img1 8192 (by decide),
   loadBootImage_success_header_only.2.1 consts0 envNoCreate img1 8192,
   loadBootImage_success_header_only.2.2 consts0 envAll imgBad 8192 (by decide)⟩

/-- C8: the constructor reserves physical memory, page by page, in exactly
this order: the first 4 MB of physical memory, the kernel image, the boot
image, the heap region, and the inter-core channel region — and then zeroes
all 256 interrupt vector table entries. -/
theorem kernelCtor_reserves_in_order (ci : CoreInfo) (init : IntTable)
    (hlen : init.length = 256) :
    (kernelCtor ci init).1 =
      List.range' ci.memPhys 1024 PAGESIZE ++
      List.range' ci.kernelPhys (cdiv ci.kernelSize PAGESIZE) PAGESIZE ++
      List.range' ci.bootImageAddress (cdiv ci.bootImageSize PAGESIZE) PAGESIZE ++
      List.range' ci.heapAddress (cdiv ci.heapSize PAGESIZE) PAGESIZE ++
      List.range' ci.coreChannelAddress (cdiv ci.coreChannelSize PAGESIZE) PAGESIZE ∧
    (kernelCtor ci init).2 = List.replicate 256 none := by
  have hzero : ∀ b n, pageLoopF b PAGESIZE n 0 n =
      List.range' b (cdiv n PAGESIZE) PAGESIZE := by
    intro b n
    have h := pageLoopF_eq_range' b n n 0 (by omega)
    simpa using h
  constructor
  · show kernelCtorAllocTrace ci = _
    rw [kernelCtorAllocTrace, hzero, hzero, hzero, hzero, hzero]
    have h4mb : cdiv (1024 * 1024 * 4) PAGESIZE = 1024 := by decide
    rw [h4mb]
  · show fillZero init = _
    have hmap : ∀ l : IntTable,
        l.map (fun _ => (none : Option (List InterruptHook))) =
          List.replicate l.length none := by
      intro l
      induction l with
      | nil => rfl
      | cons a t ih => simp [ih, List.replicate_succ]
    rw [fillZero, hmap, hlen]

set_option maxRecDepth 4000 in
/-- C8 witness: the order property at a concrete `CoreInfo` with all regions
empty, where only the fixed 4 MB reservation produces pages. -/
theorem kernelCtor_reserves_in_order_witness :
    (kernelCtor ci0 tbl0).1 =
      List.range' 0 1024 PAGESIZE ++
      List.range' 0 (cdiv 0 PAGESIZE) PAGESIZE ++
      List.range' 0 (cdiv 0 PAGESIZE) PAGESIZE ++
      List.range' 0 (cdiv 0 PAGESIZE) PAGESIZE ++
      List.range' 0 (cdiv 0 PAGESIZE) PAGESIZE ∧
    (kernelCtor ci0 tbl0).2 = List.replicate 256 none :=
  kernelCtor_reserves_in_order ci0 tbl0 (by decide)

end FreeNOSKernel
